import Mathlib

/-!
Verification of the promptloop background worker (`worker/main.go`).

The worker claims due jobs from a shared SQL store with `FOR UPDATE SKIP
LOCKED`, runs them, delivers the output to a channel, and finalizes the
outcome transactionally.  This file gives a shallow embedding of that
worker: time instants are integers (seconds), the job table is a list of
rows, a SQL transaction is an atomic state transformation (commit applies
all of its writes at once, rollback applies none — which is exactly the
guarantee the database gives the Go code), and external effects (the HTTP
client, the cron parser, base64, AES-GCM, JSON decoding) are oracles
passed in as function parameters.
-/

namespace Promptloop

/-! ## Job store rows

Mirrors the columns of the `jobs` table that the worker reads and writes
(`lockQuery`, `updateSuccess`, `updateFailure` in worker/main.go).
Instants are seconds; `interval 10 minutes` is 600 seconds. -/

structure JobRow where
  id : Nat
  enabled : Bool
  next_run_at : Int
  locked_at : Option Int
  fail_count : Nat
deriving Repr, DecidableEq

/-- One row of `run_histories`, as written by `insertHistory`. -/
structure HistoryRow where
  job_id : Nat
  status : String
  output_preview : Option String
  error_message : Option String
deriving Repr, DecidableEq

/-- The staleness window of `lockQuery`: `interval 10 minutes` in seconds. -/
def stalenessWindow : Int := 600

/-- The WHERE clause of `lockQuery`:
`enabled = true AND next_run_at <= now() AND (locked_at IS NULL OR locked_at < now() - interval 10 minutes)`. -/
def eligible (now : Int) (j : JobRow) : Bool :=
  j.enabled && decide (j.next_run_at ≤ now) &&
    (match j.locked_at with
     | none => true
     | some l => decide (l < now - stalenessWindow))

/-- The `ORDER BY next_run_at LIMIT 1` step of `lockQuery`: pick a row with
minimal `next_run_at` from the candidate set (ties broken arbitrarily by the
database; the model keeps the last minimal one). -/
def selectMin : List JobRow → Option JobRow
  | [] => none
  | j :: rest =>
    match selectMin rest with
    | none => some j
    | some b => if j.next_run_at ≤ b.next_run_at then some j else some b

/-- Sets `locked_at = now()` on a row, as the UPDATE arm of `lockQuery` does. -/
def lockRow (now : Int) (j : JobRow) : JobRow :=
  { j with locked_at := some now }

/-- Shallow embedding of `lockNextJob` running `lockQuery`: atomically select
at most one eligible row (minimal `next_run_at`) and mark it locked in the
same step, returning the claimed row (or none) together with the updated
table.  The `FOR UPDATE SKIP LOCKED` row lock serializes concurrent
executions of this statement, which is why it is modelled as one atomic
function on the table. -/
def lockNextJob (now : Int) (jobs : List JobRow) : Option JobRow × List JobRow :=
  match selectMin (jobs.filter (eligible now)) with
  | none => (none, jobs)
  | some j => (some j, jobs.map fun r => if r.id = j.id then lockRow now r else r)

/-- Go `truncate`: keep at most `max` units of the string (the Go original
counts bytes; the model counts characters, which agrees on ASCII). -/
def truncate (value : String) (max : Nat) : String :=
  if value.length ≤ max then value else value.take max

/-- Go `nullIfEmpty`: a whitespace-only string is stored as SQL NULL. -/
def nullIfEmpty (value : String) : Option String :=
  if value.trim = "" then none else some value

/-- The `updateSuccess` UPDATE:
`fail_count = 0, locked_at = NULL, next_run_at = nextRun`. -/
def updateSuccess (nextRun : Int) (j : JobRow) : JobRow :=
  { j with fail_count := 0, locked_at := none, next_run_at := nextRun }

/-- The failure-escalation threshold hard-coded in `updateFailure`. -/
def failThreshold : Nat := 10

/-- The `updateFailure` UPDATE:
`fail_count = fail_count + 1, locked_at = NULL, next_run_at = nextRun,
enabled = CASE WHEN fail_count + 1 >= 10 THEN false ELSE enabled END`. -/
def updateFailure (nextRun : Int) (j : JobRow) : JobRow :=
  { j with fail_count := j.fail_count + 1,
           locked_at := none,
           next_run_at := nextRun,
           enabled := if j.fail_count + 1 ≥ failThreshold then false else j.enabled }

/-- The tail of `processOnce` after the claim: combine the run/deliver result
`runRes` with the schedule computation `calcRes`.  A calculator error overrides
even a successful run (`runErr = schedule calc error`) and substitutes the
fallback `now + 10 minutes`; then the success path inserts a success history
row and runs `updateSuccess`, the failure path inserts a fail history row and
runs `updateFailure`. -/
def processOutcome (now : Int) (runRes : Except String String)
    (calcRes : Except String Int) (j : JobRow) : JobRow × HistoryRow :=
  let nextRun : Int := match calcRes with
    | .error _ => now + 600
    | .ok t => t
  let runErr : Option String := match calcRes with
    | .error e => some ("schedule calc error: " ++ e)
    | .ok _ => match runRes with
      | .error m => some m
      | .ok _ => none
  match runErr with
  | none =>
    (updateSuccess nextRun j,
     { job_id := j.id, status := "success",
       output_preview := nullIfEmpty (truncate (runRes.toOption.getD "") 1000),
       error_message := none })
  | some m =>
    (updateFailure nextRun j,
     { job_id := j.id, status := "fail",
       output_preview := none,
       error_message := nullIfEmpty (truncate m 500) })

/-- The shared store: the `jobs` table plus the append-only `run_histories`. -/
structure StoreState where
  jobs : List JobRow
  history : List HistoryRow
deriving Repr, DecidableEq

/-- Point update of one row of the jobs table by id. -/
def setJob (id : Nat) (j' : JobRow) (jobs : List JobRow) : List JobRow :=
  jobs.map fun r => if r.id = id then j' else r

/-- The body of one `processOnce` transaction (claim, run, finalize), as the
state transformation it commits: lock the claimed row, insert exactly one
history row, and apply the success/failure UPDATE to the claimed row.  When no
job is eligible the cycle is a no-op commit. -/
def cycleTx (now : Int) (runRes : Except String String)
    (calcRes : Except String Int) (s : StoreState) : StoreState :=
  match lockNextJob now s.jobs with
  | (none, _) => s
  | (some j, lockedJobs) =>
    let fin := processOutcome now runRes calcRes j
    { jobs := setJob j.id fin.1 lockedJobs, history := s.history ++ [fin.2] }

/-- One worker cycle seen from the shared store.  `commit = true` is the
normal path (`tx.Commit()` at the end of `processOnce`); `commit = false`
models a crash or cancellation anywhere between `BeginTx` and `Commit`: the
deferred `tx.Rollback()` (or the database itself, on a dropped connection)
aborts the transaction and none of its writes — the `locked_at = now()` of
`lockQuery` included — reach the store. -/
def processOnce (commit : Bool) (now : Int) (runRes : Except String String)
    (calcRes : Except String Int) (s : StoreState) : StoreState :=
  if commit then cycleTx now runRes calcRes s else s

/-- N claim attempts against the shared table.  `FOR UPDATE SKIP LOCKED`
in one atomic UPDATE statement serializes concurrent claimants without
blocking, so N concurrent attempts are modelled as N consecutive executions
of `lockNextJob` in some order; the result counts the successful claims. -/
def claimSeq (now : Int) : Nat → List JobRow → Nat × List JobRow
  | 0, jobs => (0, jobs)
  | n + 1, jobs =>
    match lockNextJob now jobs with
    | (none, jobs') => claimSeq now n jobs'
    | (some _, jobs') =>
      let r := claimSeq now n jobs'
      (r.1 + 1, r.2)

/-! ## Schedule calculator

`computeNextRun` in worker/main.go works on Go `time.Time` values in the
process local zone.  The model uses an idealized linear civil clock: an
instant is seconds since an epoch whose day 0 starts at midnight, a day is
86400 seconds, and the epoch day is a Thursday (weekday 4), matching the Unix
epoch convention used by Go weekdays (Sunday = 0). -/

/-- Day index of an instant (floor division — day boundaries at midnight). -/
def dayIndex (t : Int) : Int := t / 86400

/-- Go `time.Date(now.Year(), now.Month(), now.Day(), h, m, 0, 0, loc)`:
the instant of today's HH:mm. -/
def todayAt (now h m : Int) : Int := dayIndex now * 86400 + h * 3600 + m * 60

/-- Go `t.Weekday()` (0 = Sunday … 6 = Saturday) on the linear clock. -/
def weekdayOf (t : Int) : Int := (dayIndex t + 4) % 7

/-- Go `strings.Split` with a one-character separator, on the character
list of the string: the (possibly empty) substrings between occurrences of
the separator, in order.  `strings.Split("", sep)` is `[""]`. -/
def splitOnChar (sep : Char) : List Char → List (List Char)
  | [] => [[]]
  | c :: rest =>
    if c = sep then [] :: splitOnChar sep rest
    else
      match splitOnChar sep rest with
      | [] => [[c]]
      | p :: ps => (c :: p) :: ps

/-- Numeric value of a digit list, as `strconv.Atoi` accumulates it. -/
def digitsToNat (l : List Char) : Nat :=
  l.foldl (fun a c => a * 10 + (c.toNat - 48)) 0

/-- Go `strconv.Atoi` on a substring (as its character list): an optional
single leading sign followed by at least one decimal digit; anything else is
a syntax error.  (Go additionally errors on 64-bit overflow; for `parseHHMM`
the two behaviours agree, because any value that large fails the
0–23 / 0–59 range check anyway.) -/
def atoi (s : List Char) : Except String Int :=
  let sd : Int × List Char :=
    match s with
    | '+' :: rest => (1, rest)
    | '-' :: rest => (-1, rest)
    | l => (1, l)
  if sd.2 = [] then .error ("invalid syntax " ++ sd.2.asString)
  else if sd.2.all Char.isDigit then .ok (sd.1 * (digitsToNat sd.2 : Int))
  else .error ("invalid syntax " ++ sd.2.asString)

/-- Go `parseHHMM`: split on a colon into exactly two parts, `Atoi` each,
and range-check hour 0–23 and minute 0–59. -/
def parseHHMM (raw : String) : Except String (Int × Int) :=
  match splitOnChar ':' raw.data with
  | [hs, ms] =>
    match atoi hs with
    | .error e => .error e
    | .ok hour =>
      match atoi ms with
      | .error e => .error e
      | .ok minute =>
        if hour < 0 ∨ hour > 23 ∨ minute < 0 ∨ minute > 59 then
          .error ("invalid time " ++ raw)
        else .ok (hour, minute)
  | _ => .error ("invalid time " ++ raw)

/-- The schedule columns of a job as `lockNextJob` returns them
(`schedule_type`, `schedule_time`, nullable `schedule_day_of_week`,
nullable `schedule_cron`). -/
structure Schedule where
  scheduleType : String
  scheduleTime : String
  scheduleDayOfWeek : Option Int
  scheduleCron : Option String
deriving Repr, DecidableEq

/-- Go `computeNextRun`.  The robfig cron library is external, so it enters
the model as the oracle `cronParse`: `cron.ParseStandard` either rejects the
expression or yields a schedule whose `Next` is a function on instants. -/
def computeNextRun (cronParse : String → Except String (Int → Int))
    (job : Schedule) (now : Int) : Except String Int :=
  if job.scheduleType = "daily" then
    match parseHHMM job.scheduleTime with
    | .error e => .error e
    | .ok hm =>
      let next := todayAt now hm.1 hm.2
      if next > now then .ok next else .ok (next + 86400)
  else if job.scheduleType = "weekly" then
    match parseHHMM job.scheduleTime with
    | .error e => .error e
    | .ok hm =>
      match job.scheduleDayOfWeek with
      | none => .error "missing weekly day_of_week"
      | some target =>
        let delta := (target - weekdayOf now + 7) % 7
        let next := todayAt now hm.1 hm.2 + delta * 86400
        if next > now then .ok next else .ok (next + 7 * 86400)
  else if job.scheduleType = "cron" then
    match job.scheduleCron with
    | none => .error "missing cron expression"
    | some expr =>
      match cronParse expr with
      | .error e => .error e
      | .ok next => .ok (next now)
  else .error ("unknown schedule type " ++ job.scheduleType)

/-! ## Retryable HTTP send -/

/-- One observable outcome of `httpClient.Do` plus body read: either a
transport-level failure (connection error, body read error, body close
error — everything the Go code stores in `lastErr` before the status
switch) or a completed response with its status and body. -/
inductive HttpOutcome where
  | transportError (msg : String)
  | response (status : Nat) (body : String)
deriving Repr, DecidableEq

/-- Result of `sendJSONWithRetry`. -/
inductive SendResult where
  | ok
  | fail (msg : String)
deriving Repr, DecidableEq

/-- Go `shouldRetryStatus`: 429 (Too Many Requests), 408 (Request Timeout),
or any status ≥ 500. -/
def shouldRetryStatus (code : Nat) : Bool :=
  code = 429 || code = 408 || code ≥ 500

/-- Go `retryBackoff` in milliseconds: 400ms × 2^(attempt−1), capped at
4000ms.  (The Go original computes the product in float64, exact for every
attempt number reachable here.) -/
def retryBackoff (attempt : Nat) : Nat :=
  let a := if attempt < 1 then 1 else attempt
  let backoff := 400 * 2 ^ (a - 1)
  if backoff > 4000 then 4000 else backoff

/-- The error string of a non-2xx terminal response:
`channel request failed <status>: <body>`. -/
def channelFailMsg (status : Nat) (body : String) : String :=
  "channel request failed " ++ toString status ++ ": " ++ body

/-- The retry loop of `sendJSONWithRetry`.  `outcomes k` is what attempt `k`
of the HTTP call observes; `remaining` counts the loop iterations left
(`maxRetries + 1 - attempt`); `lastErr` is the Go `lastErr` variable.
Returns the result, the number of attempts actually made, and the list of
backoff sleeps taken (in ms, in order). -/
def sendLoopAux (outcomes : Nat → HttpOutcome) (maxRetries : Nat) :
    Nat → Nat → Option String → SendResult × Nat × List Nat
  | _, 0, lastErr => (.fail (lastErr.getD "delivery failed"), 0, [])
  | attempt, remaining + 1, _ =>
    match outcomes attempt with
    | .transportError m =>
      if attempt < maxRetries then
        let r := sendLoopAux outcomes maxRetries (attempt + 1) remaining (some m)
        (r.1, r.2.1 + 1, retryBackoff attempt :: r.2.2)
      else (.fail m, 1, [])
    | .response status body =>
      if status < 300 then (.ok, 1, [])
      else if shouldRetryStatus status ∧ attempt < maxRetries then
        let r := sendLoopAux outcomes maxRetries (attempt + 1) remaining
          (some (channelFailMsg status body))
        (r.1, r.2.1 + 1, retryBackoff attempt :: r.2.2)
      else (.fail (channelFailMsg status body), 1, [])

/-- Go `sendJSONWithRetry`: run the attempt loop from attempt 1 with
`maxRetries` iterations available and no previous error. -/
def sendJSONWithRetry (outcomes : Nat → HttpOutcome) (maxRetries : Nat) :
    SendResult × Nat × List Nat :=
  sendLoopAux outcomes maxRetries 1 maxRetries none

/-- Go `sleepWithContext`: the select between `ctx.Done()` and the timer —
when the context is already cancelled (or fires during the sleep) the sleep
aborts with the context error instead of completing. -/
def sleepWithContext (cancelled : Bool) (_d : Nat) : Except String Unit :=
  if cancelled then .error "context canceled" else .ok ()

/-- The delivery retry budget (`maxDeliveryRetries`). -/
def maxDeliveryRetries : Nat := 3

/-! ## Chunking -/

/-- The loop of Go `chunk` on the rune slice (`[]rune(value)` is exactly a
list of Unicode code points, i.e. `List Char`).  The fuel argument only
bounds the recursion; `value.length` units always suffice because every
iteration with `size ≥ 1` removes at least one rune. -/
def chunkAux : Nat → List Char → Nat → List (List Char)
  | 0, v, _ => [v]
  | fuel + 1, v, size =>
    if v.length ≤ size then [v]
    else v.take size :: chunkAux fuel (v.drop size) size

/-- Go `chunk`: a value at most `size` runes long is one chunk (possibly
empty); otherwise repeatedly cut `size` runes off the front. -/
def chunk (value : List Char) (size : Nat) : List (List Char) :=
  chunkAux value.length value size

/-- String-level chunking as `deliver` uses it. -/
def chunkStr (value : String) (size : Nat) : List String :=
  (chunk value.data size).map List.asString

/-! ## Secret codec -/

/-- Go `decryptString`.  Base64 and AES-GCM are external primitives, so they
enter as oracles: `b64dec` is `base64.StdEncoding.DecodeString` (`none` on
malformed input) and `gcmOpen iv data` is `gcm.Open(nil, iv, data, nil)`
under the derived process key (`none` exactly when authentication fails).
The envelope must split on colons into exactly three parts
(iv : tag : ciphertext); note the Go code feeds `ciphertext ++ tag` to
`Open`. -/
def decryptString (b64dec : List Char → Option (List Nat))
    (gcmOpen : List Nat → List Nat → Option String)
    (value : String) : Except String String :=
  match splitOnChar ':' value.data with
  | [p0, p1, p2] =>
    match b64dec p0 with
    | none => .error "illegal base64 data"
    | some iv =>
      match b64dec p1 with
      | none => .error "illegal base64 data"
      | some tag =>
        match b64dec p2 with
        | none => .error "illegal base64 data"
        | some ciphertext =>
          match gcmOpen iv (ciphertext ++ tag) with
          | none => .error "cipher: message authentication failed"
          | some plaintext => .ok plaintext
  | _ => .error "invalid encrypted payload"

/-! ## Channel delivery -/

/-- The JSON body of one outbound channel request. -/
inductive Payload where
  | content (text : String)
  | telegramMsg (chatId text : String)
  | custom (json : String)
deriving Repr, DecidableEq

/-- One outbound HTTP request that a deliver branch issues. -/
structure Request where
  method : String
  url : String
  headers : List (String × String)
  payload : Payload
deriving Repr, DecidableEq

/-- The first two lines of Go `deliver`: the message actually sent is the
header `[<job name>] <local timestamp YYYY-MM-DD HH:mm>`, a blank line, and
then the execution output. -/
def buildMessage (name timestamp output : String) : String :=
  "[" ++ name ++ "] " ++ timestamp ++ "\n\n" ++ output

/-- The `discord` branch of `deliver` (spec channel "chat-webhook"):
decrypt the webhook URL, reject a blank one, then send every ≤1900-rune
chunk of the message as its own POST with body `content = chunk`. -/
def deliverDiscord (decrypt : String → Except String String)
    (webhookUrlEnc message : String) : Except String (List Request) :=
  match decrypt webhookUrlEnc with
  | .error e => .error e
  | .ok url =>
    if url.trim = "" then .error "discord webhook url is empty"
    else .ok ((chunkStr message 1900).map fun c =>
      { method := "POST", url := url,
        headers := [("Content-Type", "application/json")],
        payload := Payload.content c })

/-- The telegram branch of `deliver` (spec channel "bot-API"): decrypt bot
token and chat id, reject blank ones, then send every ≤4000-rune chunk as a
POST to the token-templated endpoint with body `chat_id`/`text`. -/
def deliverTelegram (decrypt : String → Except String String)
    (botTokenEnc chatIdEnc message : String) : Except String (List Request) :=
  match decrypt botTokenEnc with
  | .error e => .error e
  | .ok botToken =>
    match decrypt chatIdEnc with
    | .error e => .error e
    | .ok chatId =>
      if botToken.trim = "" ∨ chatId.trim = "" then
        .error "telegram bot token/chat id is empty"
      else .ok ((chunkStr message 4000).map fun c =>
        { method := "POST",
          url := "https://api.telegram.org/bot" ++ botToken ++ "/sendMessage",
          headers := [("Content-Type", "application/json")],
          payload := Payload.telegramMsg chatId c })

/-- The decrypted generic-webhook configuration (`url`, `method`, `headers`
JSON text, `payload` JSON text). -/
structure WebhookCfg where
  url : String
  method : String
  headers : String
  payload : String
deriving Repr, DecidableEq

/-- The `webhook` branch of `deliver` (spec channel "generic-webhook").
JSON decoding is external, abstracted by the oracles `parseCfg`
(unmarshalling the decrypted config), `parseHeaders` (unmarshalling the
header map) and `validJson` (whether the payload template unmarshals).
Method defaults to POST when blank, a missing `Content-Type` is injected as
`application/json`, and a supplied payload template replaces the default
body `content = message`; a single request is issued, no chunking. -/
def deliverWebhook (decrypt : String → Except String String)
    (parseCfg : String → Except String WebhookCfg)
    (parseHeaders : String → Except String (List (String × String)))
    (validJson : String → Bool)
    (configEnc message : String) : Except String Request :=
  match decrypt configEnc with
  | .error e => .error e
  | .ok raw =>
    match parseCfg raw with
    | .error e => .error e
    | .ok cfg =>
      if cfg.url.trim = "" then .error "webhook url is empty"
      else
        let method := if cfg.method.trim.toUpper = "" then "POST" else cfg.method.trim.toUpper
        match (if cfg.headers.trim = "" then .ok [] else parseHeaders cfg.headers :
            Except String (List (String × String))) with
        | .error _ => .error "invalid webhook headers json"
        | .ok hdrs =>
          let hdrs := if (hdrs.lookup "Content-Type").isSome then hdrs
            else hdrs ++ [("Content-Type", "application/json")]
          if cfg.payload.trim = "" then
            .ok { method := method, url := cfg.url, headers := hdrs,
                  payload := Payload.content message }
          else if validJson cfg.payload then
            .ok { method := method, url := cfg.url, headers := hdrs,
                  payload := Payload.custom cfg.payload }
          else .error "invalid webhook payload json"

/-! ## Lemmas about the claim query -/

theorem selectMin_eq_none {l : List JobRow} : selectMin l = none ↔ l = [] := by
  cases l with
  | nil => simp [selectMin]
  | cons a rest =>
    simp only [selectMin]
    cases hrest : selectMin rest <;> simp_all
    split <;> simp

theorem selectMin_mem {l : List JobRow} {j : JobRow} (h : selectMin l = some j) :
    j ∈ l := by
  induction l generalizing j with
  | nil => simp [selectMin] at h
  | cons a rest ih =>
    simp only [selectMin] at h
    cases hrest : selectMin rest with
    | none => rw [hrest] at h; simp_all
    | some b =>
      rw [hrest] at h
      by_cases hle : a.next_run_at ≤ b.next_run_at
      · simp [hle] at h; simp [h]
      · simp [hle] at h
        exact List.mem_cons_of_mem _ (ih (h ▸ hrest))

theorem selectMin_isMin {l : List JobRow} {j : JobRow} (h : selectMin l = some j) :
    ∀ k ∈ l, j.next_run_at ≤ k.next_run_at := by
  induction l generalizing j with
  | nil => simp [selectMin] at h
  | cons a rest ih =>
    simp only [selectMin] at h
    cases hrest : selectMin rest with
    | none =>
      rw [hrest] at h
      have hnil : rest = [] := selectMin_eq_none.mp hrest
      subst hnil
      simp at h
      subst h
      simp
    | some b =>
      rw [hrest] at h
      have hb := ih hrest
      by_cases hle : a.next_run_at ≤ b.next_run_at
      · simp [hle] at h
        subst h
        intro k hk
        rcases List.mem_cons.mp hk with rfl | hkr
        · exact le_rfl
        · exact le_trans hle (hb k hkr)
      · simp [hle] at h
        subst h
        intro k hk
        rcases List.mem_cons.mp hk with rfl | hkr
        · omega
        · exact hb k hkr

/-- The WHERE clause of `lockQuery`, written out as a proposition. -/
theorem eligible_iff (now : Int) (j : JobRow) :
    eligible now j = true ↔
      (j.enabled = true ∧ j.next_run_at ≤ now ∧
        (j.locked_at = none ∨ ∃ l, j.locked_at = some l ∧ l < now - 600)) := by
  unfold eligible stalenessWindow
  cases hl : j.locked_at with
  | none =>
    simp only [Bool.and_true, Bool.and_eq_true, decide_eq_true_eq]
    constructor
    · rintro ⟨h1, h2⟩; exact ⟨h1, h2, Or.inl trivial⟩
    · rintro ⟨h1, h2, _⟩; exact ⟨h1, h2⟩
  | some l =>
    simp only [Bool.and_eq_true, decide_eq_true_eq]
    constructor
    · rintro ⟨⟨h1, h2⟩, h3⟩
      exact ⟨h1, h2, Or.inr ⟨l, rfl, h3⟩⟩
    · rintro ⟨h1, h2, hc⟩
      rcases hc with hnone | ⟨l', hl', h3⟩
      · exact absurd hnone (by simp)
      · injection hl' with he
        subst he
        exact ⟨⟨h1, h2⟩, h3⟩

theorem lockNextJob_some {now : Int} {jobs : List JobRow} {j : JobRow}
    (h : (lockNextJob now jobs).1 = some j) :
    j ∈ jobs ∧ eligible now j = true ∧
      (∀ k ∈ jobs, eligible now k = true → j.next_run_at ≤ k.next_run_at) ∧
      (lockNextJob now jobs).2 =
        jobs.map (fun r => if r.id = j.id then lockRow now r else r) := by
  unfold lockNextJob at h ⊢
  cases hsel : selectMin (jobs.filter (eligible now)) with
  | none => rw [hsel] at h; simp at h
  | some b =>
    rw [hsel] at h
    simp at h
    subst h
    have hmem := selectMin_mem hsel
    have hmin := selectMin_isMin hsel
    rw [List.mem_filter] at hmem
    refine ⟨hmem.1, hmem.2, ?_, ?_⟩
    · intro k hk hke
      exact hmin k (List.mem_filter.mpr ⟨hk, hke⟩)
    · rfl

theorem lockNextJob_none {now : Int} {jobs : List JobRow}
    (h : (lockNextJob now jobs).1 = none) :
    (lockNextJob now jobs).2 = jobs ∧ ∀ j ∈ jobs, eligible now j = false := by
  unfold lockNextJob at h ⊢
  cases hsel : selectMin (jobs.filter (eligible now)) with
  | some b => rw [hsel] at h; simp at h
  | none =>
    have hnil : jobs.filter (eligible now) = [] := selectMin_eq_none.mp hsel
    refine ⟨rfl, ?_⟩
    intro j hj
    cases heq : eligible now j with
    | false => rfl
    | true =>
      have : j ∈ jobs.filter (eligible now) := List.mem_filter.mpr ⟨hj, heq⟩
      rw [hnil] at this
      exact absurd this (List.not_mem_nil j)

/-- C1: `lockNextJob` (running `lockQuery`) atomically selects at most one
job satisfying `enabled AND next_run_at <= now AND (locked_at IS NULL OR
locked_at < now - 10 minutes)`, picks a candidate with the smallest
`next_run_at` among all eligible rows, and marks exactly that row locked in
the same atomic step, returning it or none; a job whose lock is 11 minutes
(660 s) old is claimable, one whose lock is 9 minutes (540 s) old is not. -/
theorem lockNextJob_claim_contract (now : Int) (jobs : List JobRow) :
    (∀ j, (lockNextJob now jobs).1 = some j →
      j ∈ jobs ∧
      (j.enabled = true ∧ j.next_run_at ≤ now ∧
        (j.locked_at = none ∨ ∃ l, j.locked_at = some l ∧ l < now - 600)) ∧
      (∀ k ∈ jobs, eligible now k = true → j.next_run_at ≤ k.next_run_at) ∧
      (lockNextJob now jobs).2 =
        jobs.map (fun r => if r.id = j.id then lockRow now r else r)) ∧
    ((lockNextJob now jobs).1 = none →
      (lockNextJob now jobs).2 = jobs ∧ ∀ j ∈ jobs, eligible now j = false) ∧
    (∀ j : JobRow, j.enabled = true → j.next_run_at ≤ now →
      j.locked_at = some (now - 660) → eligible now j = true) ∧
    (∀ j : JobRow, j.locked_at = some (now - 540) → eligible now j = false) := by
  refine ⟨?_, fun h => lockNextJob_none h, ?_, ?_⟩
  · intro j h
    obtain ⟨hmem, helig, hmin, hupd⟩ := lockNextJob_some h
    exact ⟨hmem, (eligible_iff now j).mp helig, hmin, hupd⟩
  · intro j he hn hl
    exact (eligible_iff now j).mpr ⟨he, hn, Or.inr ⟨now - 660, hl, by omega⟩⟩
  · intro j hl
    cases heq : eligible now j with
    | false => rfl
    | true =>
      obtain ⟨_, _, hc⟩ := (eligible_iff now j).mp heq
      rcases hc with hnone | ⟨l, hsome, hlt⟩
      · rw [hl] at hnone; cases hnone
      · rw [hl] at hsome
        injection hsome with hle
        omega

/-- Witness for C1 at a concrete store: a single enabled job, due at
`now = 1000` with an 11-minute-old (660 s) lock, is claimed and relocked. -/
theorem lockNextJob_claim_contract_witness :
    ((⟨7, true, 900, some 340, 0⟩ : JobRow) ∈ [(⟨7, true, 900, some 340, 0⟩ : JobRow)] ∧
      ((⟨7, true, 900, some 340, 0⟩ : JobRow).enabled = true ∧
        (⟨7, true, 900, some 340, 0⟩ : JobRow).next_run_at ≤ 1000 ∧
        ((⟨7, true, 900, some 340, 0⟩ : JobRow).locked_at = none ∨
          ∃ l, (⟨7, true, 900, some 340, 0⟩ : JobRow).locked_at = some l ∧ l < 1000 - 600)) ∧
      (∀ k ∈ [(⟨7, true, 900, some 340, 0⟩ : JobRow)], eligible 1000 k = true →
        (⟨7, true, 900, some 340, 0⟩ : JobRow).next_run_at ≤ k.next_run_at) ∧
      (lockNextJob 1000 [(⟨7, true, 900, some 340, 0⟩ : JobRow)]).2 =
        [(⟨7, true, 900, some 340, 0⟩ : JobRow)].map
          (fun r => if r.id = (⟨7, true, 900, some 340, 0⟩ : JobRow).id
            then lockRow 1000 r else r)) ∧
    eligible 1000 (⟨7, true, 900, some 340, 0⟩ : JobRow) = true :=
  ⟨(lockNextJob_claim_contract 1000 [⟨7, true, 900, some 340, 0⟩]).1
      ⟨7, true, 900, some 340, 0⟩ (by decide),
    (lockNextJob_claim_contract 1000 [⟨7, true, 900, some 340, 0⟩]).2.2.1
      ⟨7, true, 900, some 340, 0⟩ (by decide) (by decide) (by decide)⟩

/-! ## C2: mutual exclusion of concurrent claim attempts -/

theorem lockNextJob_all_ineligible {now : Int} {jobs : List JobRow}
    (h : ∀ k ∈ jobs, eligible now k = false) :
    lockNextJob now jobs = (none, jobs) := by
  unfold lockNextJob
  have hnil : jobs.filter (eligible now) = [] := by
    rw [List.filter_eq_nil_iff]
    intro a ha
    simp [h a ha]
  rw [hnil]
  rfl

theorem claimSeq_all_ineligible {now : Int} {jobs : List JobRow} (n : Nat)
    (h : ∀ k ∈ jobs, eligible now k = false) :
    claimSeq now n jobs = (0, jobs) := by
  induction n with
  | zero => rfl
  | succ n ih =>
    show claimSeq now (n + 1) jobs = (0, jobs)
    unfold claimSeq
    rw [lockNextJob_all_ineligible h]
    exact ih

/-- C2: for every N ≥ 1, N claim attempts against a store holding exactly
one due, unlocked, enabled job produce exactly one successful claim; the
other N − 1 attempts see no available job (the single atomic
claim-and-lock statement, serialized by `FOR UPDATE SKIP LOCKED`, makes the
job ineligible for everyone after the first claimant). -/
theorem concurrent_claims_exclusive (now : Int) (j : JobRow) (N : Nat)
    (hN : 1 ≤ N) (he : j.enabled = true) (hl : j.locked_at = none)
    (hd : j.next_run_at ≤ now) :
    claimSeq now N [j] = (1, [lockRow now j]) := by
  obtain ⟨n, rfl⟩ : ∃ n, N = n + 1 := ⟨N - 1, by omega⟩
  have helig : eligible now j = true := (eligible_iff now j).mpr ⟨he, hd, Or.inl hl⟩
  have hlock : lockNextJob now [j] = (some j, [lockRow now j]) := by
    unfold lockNextJob
    have hfil : [j].filter (eligible now) = [j] := by simp [helig]
    rw [hfil]
    simp [selectMin]
  have hafter : eligible now (lockRow now j) = false := by
    cases heq : eligible now (lockRow now j) with
    | false => rfl
    | true =>
      obtain ⟨_, _, hc⟩ := (eligible_iff now (lockRow now j)).mp heq
      rcases hc with hnone | ⟨l, hsome, hlt⟩
      · exact absurd hnone (by simp [lockRow])
      · have : l = now := by
          have : (lockRow now j).locked_at = some now := rfl
          rw [this] at hsome
          injection hsome with he'
          omega
        omega
  show claimSeq now (n + 1) [j] = (1, [lockRow now j])
  unfold claimSeq
  rw [hlock]
  have hseq : claimSeq now n [lockRow now j] = (0, [lockRow now j]) :=
    claimSeq_all_ineligible n (by intro k hk; simp at hk; rw [hk]; exact hafter)
  show ((claimSeq now n [lockRow now j]).1 + 1, (claimSeq now n [lockRow now j]).2) =
    (1, [lockRow now j])
  rw [hseq]

/-- Witness for C2: three claim attempts at `now = 0` against one due,
unlocked job end with exactly one success. -/
theorem concurrent_claims_exclusive_witness :
    1 ≤ 3 ∧
      claimSeq 0 3 [(⟨1, true, 0, none, 0⟩ : JobRow)] =
        (1, [lockRow 0 ⟨1, true, 0, none, 0⟩]) :=
  ⟨by decide,
   concurrent_claims_exclusive 0 ⟨1, true, 0, none, 0⟩ 3 (by decide) rfl rfl (by decide)⟩

/-! ## C4: finalization updates -/

/-- C4: finalizing a claimed (hence enabled) job as a failure increments
`fail_count` by exactly 1, clears the lock, sets the new `next_run_at`, and
disables the job exactly when the post-increment `fail_count` reaches the
threshold 10 (so `fail_count = 9` plus one more failure disables it, and the
cycle records a "fail" history row); finalizing as a success resets
`fail_count` to 0, clears the lock, sets the new `next_run_at`, leaves
`enabled` untouched, and records a "success" history row. -/
theorem finalize_outcome_updates (j : JobRow) (nextRun now : Int) (m out : String)
    (he : j.enabled = true) :
    ((updateFailure nextRun j).fail_count = j.fail_count + 1 ∧
      (updateFailure nextRun j).locked_at = none ∧
      (updateFailure nextRun j).next_run_at = nextRun ∧
      ((updateFailure nextRun j).enabled = false ↔ j.fail_count + 1 ≥ 10)) ∧
    (j.fail_count = 9 → (updateFailure nextRun j).enabled = false) ∧
    (processOutcome now (.error m) (.ok nextRun) j =
      (updateFailure nextRun j,
        { job_id := j.id, status := "fail", output_preview := none,
          error_message := nullIfEmpty (truncate m 500) })) ∧
    ((updateSuccess nextRun j).fail_count = 0 ∧
      (updateSuccess nextRun j).locked_at = none ∧
      (updateSuccess nextRun j).next_run_at = nextRun ∧
      (updateSuccess nextRun j).enabled = j.enabled) ∧
    (processOutcome now (.ok out) (.ok nextRun) j =
      (updateSuccess nextRun j,
        { job_id := j.id, status := "success",
          output_preview := nullIfEmpty (truncate out 1000),
          error_message := none })) := by
  refine ⟨⟨rfl, rfl, rfl, ?_⟩, ?_, rfl, ⟨rfl, rfl, rfl, rfl⟩, rfl⟩
  · unfold updateFailure failThreshold
    by_cases h10 : j.fail_count + 1 ≥ 10
    · simp [h10]
    · simp [h10, he]
  · intro h9
    simp [updateFailure, failThreshold, h9]

/-- Witness for C4: a job with `fail_count = 9` that fails once more ends
with `fail_count = 10` and `enabled = false`. -/
theorem finalize_outcome_updates_witness :
    (⟨3, true, 0, some 0, 9⟩ : JobRow).enabled = true ∧
      (updateFailure 600 (⟨3, true, 0, some 0, 9⟩ : JobRow)).enabled = false ∧
      (updateFailure 600 (⟨3, true, 0, some 0, 9⟩ : JobRow)).fail_count = 9 + 1 :=
  ⟨rfl,
   (finalize_outcome_updates ⟨3, true, 0, some 0, 9⟩ 600 0 "boom" "out" rfl).2.1 rfl,
   (finalize_outcome_updates ⟨3, true, 0, some 0, 9⟩ 600 0 "boom" "out" rfl).1.1⟩

/-! ## C3: the claim-to-finalize transaction -/

/-- Refutation of C3 as stated: the claim (`lockQuery`) runs inside the same
transaction as the finalize, so a rollback between claim and finalize undoes
the `locked_at = now()` write as well.  At a concrete store with one due,
unlocked job, an aborted cycle leaves the job with `locked_at = none` — not
locked — and the very next claim attempt at the same instant reclaims it
immediately, with no 10-minute staleness wait. -/
theorem aborted_cycle_lock_rollback_counterexample :
    processOnce false 0 (.ok "out") (.ok 86400)
        ⟨[(⟨1, true, 0, none, 0⟩ : JobRow)], []⟩ =
      ⟨[(⟨1, true, 0, none, 0⟩ : JobRow)], []⟩ ∧
    ((processOnce false 0 (.ok "out") (.ok 86400)
        ⟨[(⟨1, true, 0, none, 0⟩ : JobRow)], []⟩).jobs.map JobRow.locked_at = [none]) ∧
    (lockNextJob 0 (processOnce false 0 (.ok "out") (.ok 86400)
        ⟨[(⟨1, true, 0, none, 0⟩ : JobRow)], []⟩).jobs).1 =
      some ⟨1, true, 0, none, 0⟩ := by
  refine ⟨rfl, rfl, by decide⟩

/-- C3 (amended): the RunHistory insert and the job update commit together or
not at all; a crash or cancellation between claim and finalize rolls the
transaction back, leaving the store — the claimed job's lock included —
exactly as if the cycle never started, so the job is immediately claimable
again by the next cycle rather than after a staleness wait (at-least-once:
the due job is re-executed). -/
theorem transactional_finalize_amended (now : Int) (runRes : Except String String)
    (calcRes : Except String Int) (s : StoreState) :
    processOnce false now runRes calcRes s = s ∧
    (∀ j, (lockNextJob now s.jobs).1 = some j →
      processOnce true now runRes calcRes s =
        { jobs := setJob j.id (processOutcome now runRes calcRes j).1
            (lockNextJob now s.jobs).2,
          history := s.history ++ [(processOutcome now runRes calcRes j).2] } ∧
      (lockNextJob now (processOnce false now runRes calcRes s).jobs).1 = some j) := by
  refine ⟨rfl, ?_⟩
  intro j h
  constructor
  · show cycleTx now runRes calcRes s = _
    unfold cycleTx
    rcases hlock : lockNextJob now s.jobs with ⟨o, jl⟩
    rw [hlock] at h
    change o = some j at h
    subst h
    rfl
  · exact h

/-- Witness for C3 (amended) at a concrete store with one due, unlocked job. -/
theorem transactional_finalize_amended_witness :
    (lockNextJob 5 [(⟨2, true, 3, none, 0⟩ : JobRow)]).1 = some ⟨2, true, 3, none, 0⟩ ∧
      processOnce true 5 (.ok "out") (.ok 99) ⟨[(⟨2, true, 3, none, 0⟩ : JobRow)], []⟩ =
        { jobs := setJob 2 (processOutcome 5 (.ok "out") (.ok 99) ⟨2, true, 3, none, 0⟩).1
            (lockNextJob 5 [(⟨2, true, 3, none, 0⟩ : JobRow)]).2,
          history := [] ++ [(processOutcome 5 (.ok "out") (.ok 99) ⟨2, true, 3, none, 0⟩).2] } ∧
      (lockNextJob 5 (processOnce false 5 (.ok "out") (.ok 99)
          ⟨[(⟨2, true, 3, none, 0⟩ : JobRow)], []⟩).jobs).1 = some ⟨2, true, 3, none, 0⟩ :=
  ⟨by decide,
   ((transactional_finalize_amended 5 (.ok "out") (.ok 99)
      ⟨[⟨2, true, 3, none, 0⟩], []⟩).2 ⟨2, true, 3, none, 0⟩ (by decide)).1,
   ((transactional_finalize_amended 5 (.ok "out") (.ok 99)
      ⟨[⟨2, true, 3, none, 0⟩], []⟩).2 ⟨2, true, 3, none, 0⟩ (by decide)).2⟩

/-! ## C5: schedule arithmetic -/

theorem parseHHMM_ok_bounds {raw : String} {hh mm : Int}
    (hp : parseHHMM raw = .ok (hh, mm)) :
    0 ≤ hh ∧ hh ≤ 23 ∧ 0 ≤ mm ∧ mm ≤ 59 := by
  unfold parseHHMM at hp
  split at hp <;> try cases hp
  split at hp <;> try cases hp
  split at hp <;> try cases hp
  split at hp <;> try cases hp
  omega

/-- C5: for a well-formed daily schedule at HH:mm, the next run is today's
HH:mm when `now` is strictly before it and tomorrow's HH:mm otherwise (a tie
to the second rolls 24 h), and it is always strictly after `now`; for a
well-formed weekly schedule the computed instant falls on the target
weekday, is strictly after `now`, is at most 7 days ahead, and when the
target day is today with the time already passed it rolls 7 days, not 0. -/
theorem schedule_next_run_correct (cronParse : String → Except String (Int → Int))
    (job : Schedule) (now hh mm : Int)
    (hp : parseHHMM job.scheduleTime = .ok (hh, mm)) :
    (job.scheduleType = "daily" →
      computeNextRun cronParse job now =
        .ok (if now < todayAt now hh mm then todayAt now hh mm
             else todayAt now hh mm + 86400) ∧
      ∀ r, computeNextRun cronParse job now = .ok r → now < r) ∧
    (job.scheduleType = "weekly" →
      ∀ target, job.scheduleDayOfWeek = some target → 0 ≤ target → target ≤ 6 →
        ∀ r, computeNextRun cronParse job now = .ok r →
          weekdayOf r = target ∧ now < r ∧ r - now ≤ 7 * 86400 ∧
          (target = weekdayOf now → todayAt now hh mm ≤ now →
            r = todayAt now hh mm + 7 * 86400)) := by
  obtain ⟨b1, b2, b3, b4⟩ := parseHHMM_ok_bounds hp
  constructor
  · intro ht
    have hcomp : computeNextRun cronParse job now =
        if todayAt now hh mm > now then .ok (todayAt now hh mm)
        else .ok (todayAt now hh mm + 86400) := by
      simp [computeNextRun, ht, hp]
    constructor
    · rw [hcomp]
      by_cases hlt : now < todayAt now hh mm
      · simp [hlt]
      · simp [hlt]
    · intro r hr
      rw [hcomp] at hr
      by_cases hlt : todayAt now hh mm > now
      · simp [hlt] at hr
        omega
      · simp [hlt] at hr
        unfold todayAt dayIndex at *
        omega
  · intro ht target htg ht0 ht6 r hr
    have hcomp : computeNextRun cronParse job now =
        if todayAt now hh mm + (target - weekdayOf now + 7) % 7 * 86400 > now
        then .ok (todayAt now hh mm + (target - weekdayOf now + 7) % 7 * 86400)
        else .ok (todayAt now hh mm + (target - weekdayOf now + 7) % 7 * 86400 + 7 * 86400) := by
      simp [computeNextRun, ht, hp, htg]
    rw [hcomp] at hr
    by_cases hgt : todayAt now hh mm + (target - weekdayOf now + 7) % 7 * 86400 > now
    · rw [if_pos hgt] at hr
      injection hr with hreq
      clear hcomp hp
      unfold weekdayOf todayAt dayIndex at hreq hgt ⊢
      omega
    · rw [if_neg hgt] at hr
      injection hr with hreq
      clear hcomp hp
      unfold weekdayOf todayAt dayIndex at hreq hgt ⊢
      omega

/-- Witness for C5: a daily job at "09:00" seen at 08:00 of epoch day 0 runs
today at 09:00 (and strictly after now); a weekly job at "07:00" on
day-of-week 4 — epoch day 0 is weekday 4 — seen at 08:00 rolls a full 7
days. -/
theorem schedule_next_run_correct_witness :
    (computeNextRun (fun _ => .error "unused") ⟨"daily", "09:00", none, none⟩ 28800 =
      .ok (if 28800 < todayAt 28800 9 0 then todayAt 28800 9 0
           else todayAt 28800 9 0 + 86400)) ∧
    (28800 : Int) < 32400 ∧
    (weekdayOf 630000 = 4 ∧ (28800 : Int) < 630000 ∧
      (630000 : Int) - 28800 ≤ 7 * 86400 ∧
      ((4 : Int) = weekdayOf 28800 → todayAt 28800 7 0 ≤ 28800 →
        (630000 : Int) = todayAt 28800 7 0 + 7 * 86400)) :=
  ⟨((schedule_next_run_correct (fun _ => .error "unused") ⟨"daily", "09:00", none, none⟩
      28800 9 0 (by rfl)).1 rfl).1,
   ((schedule_next_run_correct (fun _ => .error "unused") ⟨"daily", "09:00", none, none⟩
      28800 9 0 (by rfl)).1 rfl).2 32400 (by rfl),
   (schedule_next_run_correct (fun _ => .error "unused") ⟨"weekly", "07:00", some 4, none⟩
      28800 7 0 (by rfl)).2 rfl 4 rfl (by decide) (by decide) 630000 (by rfl)⟩

/-! ## C6: malformed schedules are errors, and the cycle falls back -/

/-- C6: a malformed schedule (a time that does not split into two colon
parts, a non-numeric or out-of-range HH:mm, a weekly schedule without
`day_of_week`, a cron schedule without or with an unparseable expression, or
an unknown schedule type) makes `computeNextRun` return an error rather than
crash, and `processOnce` then still advances the job: `next_run_at` becomes
the fallback `now + 10 minutes` — strictly in the future — via the failure
UPDATE, and the cycle is recorded as a "fail" history row. -/
theorem malformed_schedule_fallback (cronParse : String → Except String (Int → Int))
    (now : Int) :
    (∀ job : Schedule, job.scheduleType = "daily" ∨ job.scheduleType = "weekly" →
      ∀ e, parseHHMM job.scheduleTime = .error e →
        computeNextRun cronParse job now = .error e) ∧
    (∀ raw : String, (splitOnChar ':' raw.data).length ≠ 2 →
      ∃ e, parseHHMM raw = .error e) ∧
    (∀ job : Schedule, job.scheduleType = "weekly" → job.scheduleDayOfWeek = none →
      ∀ hh mmv, parseHHMM job.scheduleTime = .ok (hh, mmv) →
        computeNextRun cronParse job now = .error "missing weekly day_of_week") ∧
    (∀ job : Schedule, job.scheduleType = "cron" → job.scheduleCron = none →
      computeNextRun cronParse job now = .error "missing cron expression") ∧
    (∀ (job : Schedule) (expr e : String), job.scheduleType = "cron" →
      job.scheduleCron = some expr → cronParse expr = .error e →
      computeNextRun cronParse job now = .error e) ∧
    (∀ job : Schedule, job.scheduleType ≠ "daily" → job.scheduleType ≠ "weekly" →
      job.scheduleType ≠ "cron" →
      computeNextRun cronParse job now =
        .error ("unknown schedule type " ++ job.scheduleType)) ∧
    (∀ (j : JobRow) (runRes : Except String String) (e : String),
      (processOutcome now runRes (.error e) j).1.next_run_at = now + 600 ∧
      now < (processOutcome now runRes (.error e) j).1.next_run_at ∧
      (processOutcome now runRes (.error e) j).2.status = "fail" ∧
      (processOutcome now runRes (.error e) j).1 = updateFailure (now + 600) j) := by
  refine ⟨?_, ?_, ?_, ?_, ?_, ?_, ?_⟩
  · intro job ht e hpe
    rcases ht with ht | ht <;> simp [computeNextRun, ht, hpe]
  · intro raw hlen
    unfold parseHHMM
    cases hsp : splitOnChar ':' raw.data with
    | nil => exact ⟨_, rfl⟩
    | cons a t =>
      cases t with
      | nil => exact ⟨_, rfl⟩
      | cons b t2 =>
        cases t2 with
        | nil => rw [hsp] at hlen; simp at hlen
        | cons c t3 => exact ⟨_, rfl⟩
  · intro job ht hdow hh mmv hpok
    simp [computeNextRun, ht, hdow, hpok]
  · intro job ht hcron
    simp [computeNextRun, ht, hcron]
  · intro job expr e ht hcron hparse
    simp [computeNextRun, ht, hcron, hparse]
  · intro job h1 h2 h3
    simp [computeNextRun, h1, h2, h3]
  · intro j runRes e
    exact ⟨rfl, by show now < now + 600; omega, rfl, rfl⟩

/-- Witness for C6: time "24:00" is rejected (hour out of range), the cycle
records a failure and reschedules the job at `now + 600`. -/
theorem malformed_schedule_fallback_witness :
    computeNextRun (fun _ => .error "bad cron") ⟨"daily", "24:00", none, none⟩ 0 =
      .error "invalid time 24:00" ∧
    (processOutcome 0 (.ok "out") (.error "invalid time 24:00")
      (⟨1, true, 0, some 0, 0⟩ : JobRow)).1.next_run_at = 0 + 600 :=
  ⟨(malformed_schedule_fallback (fun _ => .error "bad cron") 0).1
      ⟨"daily", "24:00", none, none⟩ (Or.inl rfl) "invalid time 24:00" (by rfl),
   ((malformed_schedule_fallback (fun _ => .error "bad cron") 0).2.2.2.2.2.2
      ⟨1, true, 0, some 0, 0⟩ (.ok "out") "invalid time 24:00").1⟩

/-! ## C7: the shared HTTP retry primitive -/

theorem sendLoopAux_attempts_le (outcomes : Nat → HttpOutcome) (M : Nat) :
    ∀ (remaining attempt : Nat) (lastErr : Option String),
      (sendLoopAux outcomes M attempt remaining lastErr).2.1 ≤ remaining := by
  intro remaining
  induction remaining with
  | zero => intro attempt lastErr; simp [sendLoopAux]
  | succ rem ih =>
    intro attempt lastErr
    cases ho : outcomes attempt with
    | transportError m =>
      by_cases hlt : attempt < M
      · simp only [sendLoopAux, ho, if_pos hlt]
        have := ih (attempt + 1) (some m)
        omega
      · simp only [sendLoopAux, ho, if_neg hlt]
        omega
    | response s b =>
      by_cases h300 : s < 300
      · simp only [sendLoopAux, ho, if_pos h300]
        omega
      · by_cases hretry : shouldRetryStatus s = true ∧ attempt < M
        · simp only [sendLoopAux, ho, if_neg h300, if_pos hretry]
          have := ih (attempt + 1) (some (channelFailMsg s b))
          omega
        · simp only [sendLoopAux, ho, if_neg h300, if_neg hretry]
          omega

theorem sendLoopAux_stop_success (outcomes : Nat → HttpOutcome) (M : Nat)
    (attempt rem : Nat) (lastErr : Option String) {s : Nat} {b : String}
    (ho : outcomes attempt = .response s b) (h300 : s < 300) :
    sendLoopAux outcomes M attempt (rem + 1) lastErr = (.ok, 1, []) := by
  simp only [sendLoopAux, ho, if_pos h300]

theorem sendLoopAux_stop_terminal (outcomes : Nat → HttpOutcome) (M : Nat)
    (attempt rem : Nat) (lastErr : Option String) {s : Nat} {b : String}
    (ho : outcomes attempt = .response s b) (h300 : ¬ s < 300)
    (hrs : shouldRetryStatus s = false) :
    sendLoopAux outcomes M attempt (rem + 1) lastErr =
      (.fail (channelFailMsg s b), 1, []) := by
  simp only [sendLoopAux, ho, if_neg h300]
  rw [if_neg]
  rintro ⟨hc, -⟩
  rw [hrs] at hc
  cases hc

theorem sendLoopAux_backoffs (outcomes : Nat → HttpOutcome) (M : Nat) :
    ∀ (remaining attempt : Nat) (lastErr : Option String), 1 ≤ remaining →
      attempt + remaining = M + 1 →
      1 ≤ (sendLoopAux outcomes M attempt remaining lastErr).2.1 ∧
      (sendLoopAux outcomes M attempt remaining lastErr).2.2 =
        (List.range ((sendLoopAux outcomes M attempt remaining lastErr).2.1 - 1)).map
          (fun i => retryBackoff (attempt + i)) := by
  intro remaining
  induction remaining with
  | zero => intro attempt lastErr h1 _; omega
  | succ rem ih =>
    intro attempt lastErr _ hsum
    have hcons : ∀ (m : String),
        1 ≤ (sendLoopAux outcomes M (attempt + 1) rem (some m)).2.1 ∧
          (sendLoopAux outcomes M (attempt + 1) rem (some m)).2.2 =
            (List.range ((sendLoopAux outcomes M (attempt + 1) rem (some m)).2.1 - 1)).map
              (fun i => retryBackoff (attempt + 1 + i)) →
        retryBackoff attempt :: (sendLoopAux outcomes M (attempt + 1) rem (some m)).2.2 =
          (List.range ((sendLoopAux outcomes M (attempt + 1) rem (some m)).2.1 + 1 - 1)).map
            (fun i => retryBackoff (attempt + i)) := by
      intro m ⟨ihn, ihb⟩
      obtain ⟨n, hn⟩ : ∃ n, (sendLoopAux outcomes M (attempt + 1) rem (some m)).2.1 = n + 1 :=
        ⟨(sendLoopAux outcomes M (attempt + 1) rem (some m)).2.1 - 1, by omega⟩
      rw [ihb, hn]
      simp only [Nat.add_sub_cancel, List.range_succ_eq_map, List.map_cons, List.map_map]
      congr 1
      apply List.map_congr_left
      intro a _
      simp only [Function.comp]
      congr 1
      omega
    cases ho : outcomes attempt with
    | transportError m =>
      by_cases hlt : attempt < M
      · have hrem : 1 ≤ rem := by omega
        have ihm := ih (attempt + 1) (some m) hrem (by omega)
        simp only [sendLoopAux, ho, if_pos hlt]
        exact ⟨by omega, hcons m ihm⟩
      · simp only [sendLoopAux, ho, if_neg hlt]
        simp
    | response s b =>
      by_cases h300 : s < 300
      · simp only [sendLoopAux, ho, if_pos h300]
        simp
      · by_cases hretry : shouldRetryStatus s = true ∧ attempt < M
        · have hrem : 1 ≤ rem := by omega
          have ihm := ih (attempt + 1) (some (channelFailMsg s b)) hrem (by omega)
          simp only [sendLoopAux, ho, if_neg h300, if_pos hretry]
          exact ⟨by omega, hcons (channelFailMsg s b) ihm⟩
        · simp only [sendLoopAux, ho, if_neg h300, if_neg hretry]
          simp

/-- Refutation of C7 as stated: a response status of 100 is not 2xx and not
in the retry set {429, 408, 5xx}, so per the claim it should be a terminal
failure carrying the response body — but the code treats every status
below 300 as success (`resp.StatusCode < 300`), so the send reports
success. -/
theorem non2xx_terminal_claim_counterexample :
    sendJSONWithRetry (fun _ => .response 100 "ignored body") 3 = (.ok, 1, []) ∧
      ∀ m, SendResult.ok ≠ SendResult.fail m :=
  ⟨rfl, fun _ h => by cases h⟩

/-- C7 (amended): the shared HTTP send primitive makes between 1 and 3
attempts; a status below 300 is an immediate success and a status ≥ 300
outside {429, 408, 5xx} is a terminal failure (no retry) whose error carries
the response body; a second attempt happens only after a transport error or
a retryable (429/408/5xx) status; the waits taken before retries are
exactly `retryBackoff 1, retryBackoff 2, …` where
`retryBackoff k = min (400·2^(k−1)) 4000` ms (so capped at 4 s); and the
backoff sleep aborts immediately with the context error when cancelled. -/
theorem send_retry_policy_amended (outcomes : Nat → HttpOutcome) :
    (sendJSONWithRetry outcomes 3).2.1 ≤ 3 ∧
    1 ≤ (sendJSONWithRetry outcomes 3).2.1 ∧
    (∀ s b, outcomes 1 = .response s b → s < 300 →
      sendJSONWithRetry outcomes 3 = (.ok, 1, [])) ∧
    (∀ s b, outcomes 1 = .response s b → ¬ s < 300 → shouldRetryStatus s = false →
      sendJSONWithRetry outcomes 3 = (.fail (channelFailMsg s b), 1, [])) ∧
    (2 ≤ (sendJSONWithRetry outcomes 3).2.1 →
      (∃ m, outcomes 1 = .transportError m) ∨
      (∃ s b, outcomes 1 = .response s b ∧ ¬ s < 300 ∧ shouldRetryStatus s = true)) ∧
    ((sendJSONWithRetry outcomes 3).2.2 =
      (List.range ((sendJSONWithRetry outcomes 3).2.1 - 1)).map
        (fun i => retryBackoff (1 + i))) ∧
    (∀ k, retryBackoff k = min (400 * 2 ^ (k - 1)) 4000) ∧
    retryBackoff 5 = 4000 ∧
    (∀ d, sleepWithContext true d = .error "context canceled") := by
  refine ⟨sendLoopAux_attempts_le outcomes 3 3 1 none,
    (sendLoopAux_backoffs outcomes 3 3 1 none (by omega) (by omega)).1,
    ?_, ?_, ?_,
    (sendLoopAux_backoffs outcomes 3 3 1 none (by omega) (by omega)).2,
    ?_, rfl, fun _ => rfl⟩
  · intro s b ho h300
    exact sendLoopAux_stop_success outcomes 3 1 2 none ho h300
  · intro s b ho h300 hrs
    exact sendLoopAux_stop_terminal outcomes 3 1 2 none ho h300 hrs
  · intro h2
    cases ho : outcomes 1 with
    | transportError m => exact Or.inl ⟨m, rfl⟩
    | response s b =>
      by_cases h300 : s < 300
      · rw [show sendJSONWithRetry outcomes 3 = sendLoopAux outcomes 3 1 3 none from rfl,
          sendLoopAux_stop_success outcomes 3 1 2 none ho h300] at h2
        simp at h2
      · cases hrs : shouldRetryStatus s with
        | true => exact Or.inr ⟨s, b, rfl, h300, hrs⟩
        | false =>
          rw [show sendJSONWithRetry outcomes 3 = sendLoopAux outcomes 3 1 3 none from rfl,
            sendLoopAux_stop_terminal outcomes 3 1 2 none ho h300 hrs] at h2
          simp at h2
  · intro k
    unfold retryBackoff
    rcases k with _ | n
    · rfl
    · have h1 : ¬ (n + 1 < 1) := by omega
      simp only [if_neg h1, Nat.add_sub_cancel]
      rcases le_or_lt (400 * 2 ^ n) 4000 with hle | hgt
      · rw [if_neg (by omega), Nat.min_def, if_pos hle]
      · rw [if_pos hgt, Nat.min_def, if_neg (by omega)]

/-- Witness for C7 (amended): a 404 response on the first attempt is a
terminal failure with the body in the error, after exactly one attempt. -/
theorem send_retry_policy_amended_witness :
    sendJSONWithRetry (fun _ => .response 404 "not found") 3 =
      (.fail (channelFailMsg 404 "not found"), 1, []) ∧
      retryBackoff 2 = min (400 * 2 ^ (2 - 1)) 4000 :=
  ⟨(send_retry_policy_amended (fun _ => .response 404 "not found")).2.2.2.1
      404 "not found" rfl (by omega) rfl,
   (send_retry_policy_amended (fun _ => .response 404 "not found")).2.2.2.2.2.2.1 2⟩

/-! ## C8: chunking -/

theorem chunkAux_join (size : Nat) :
    ∀ (fuel : Nat) (v : List Char), (chunkAux fuel v size).flatten = v := by
  intro fuel
  induction fuel with
  | zero => intro v; simp [chunkAux]
  | succ f ih =>
    intro v
    unfold chunkAux
    by_cases h : v.length ≤ size
    · rw [if_pos h]; simp
    · rw [if_neg h]
      simp only [List.flatten_cons, ih (v.drop size)]
      exact List.take_append_drop size v

theorem chunkAux_base (size fuel : Nat) (v : List Char) (h : v.length ≤ size) :
    chunkAux fuel v size = [v] := by
  cases fuel with
  | zero => rfl
  | succ f => simp [chunkAux, h]

theorem chunkAux_step (size fuel : Nat) (v : List Char)
    (h : ¬ v.length ≤ size) (hf : 1 ≤ fuel) :
    chunkAux fuel v size = v.take size :: chunkAux (fuel - 1) (v.drop size) size := by
  obtain ⟨f, rfl⟩ : ∃ f, fuel = f + 1 := ⟨fuel - 1, by omega⟩
  simp [chunkAux, h]

theorem chunk_5000_at_1900 :
    chunk (List.replicate 5000 'a') 1900 =
      [List.replicate 1900 'a', List.replicate 1900 'a', List.replicate 1200 'a'] := by
  rw [chunk, List.length_replicate]
  rw [chunkAux_step 1900 5000 _ (by rw [List.length_replicate]; omega) (by omega)]
  simp only [List.take_replicate, List.drop_replicate]
  norm_num
  rw [chunkAux_step 1900 4999 _ (by rw [List.length_replicate]; omega) (by omega)]
  simp only [List.take_replicate, List.drop_replicate]
  norm_num
  rw [chunkAux_base 1900 4998 _ (by rw [List.length_replicate]; omega)]

theorem chunk_5000_at_4000 :
    chunk (List.replicate 5000 'a') 4000 =
      [List.replicate 4000 'a', List.replicate 1000 'a'] := by
  rw [chunk, List.length_replicate]
  rw [chunkAux_step 4000 5000 _ (by rw [List.length_replicate]; omega) (by omega)]
  simp only [List.take_replicate, List.drop_replicate]
  norm_num
  rw [chunkAux_base 4000 4999 _ (by rw [List.length_replicate]; omega)]

theorem chunkAux_le (size : Nat) (hs : 1 ≤ size) :
    ∀ (fuel : Nat) (v : List Char), v.length ≤ fuel →
      ∀ c ∈ chunkAux fuel v size, c.length ≤ size := by
  intro fuel
  induction fuel with
  | zero =>
    intro v hv c hc
    simp [chunkAux] at hc
    subst hc
    omega
  | succ f ih =>
    intro v hv c hc
    unfold chunkAux at hc
    by_cases h : v.length ≤ size
    · rw [if_pos h] at hc
      simp at hc
      subst hc
      exact h
    · rw [if_neg h] at hc
      simp only [List.mem_cons] at hc
      rcases hc with rfl | hc
      · simp [List.length_take]
      · exact ih (v.drop size) (by simp [List.length_drop]; omega) c hc

theorem chunkAux_ne_nil (fuel : Nat) (v : List Char) (size : Nat) :
    chunkAux fuel v size ≠ [] := by
  cases fuel with
  | zero => simp [chunkAux]
  | succ f =>
    unfold chunkAux
    split <;> simp

theorem deliverDiscord_ok_shape {decrypt : String → Except String String}
    {enc msg : String} {reqs : List Request}
    (h : deliverDiscord decrypt enc msg = .ok reqs) :
    ∃ url, reqs = (chunkStr msg 1900).map fun c =>
      { method := "POST", url := url,
        headers := [("Content-Type", "application/json")],
        payload := Payload.content c } := by
  unfold deliverDiscord at h
  split at h
  next e heq => cases h
  next url heq =>
    split at h
    next hcond => cases h
    next hcond =>
      injection h with h'
      exact ⟨url, h'.symm⟩

theorem deliverTelegram_ok_shape {decrypt : String → Except String String}
    {tokEnc cidEnc msg : String} {reqs : List Request}
    (h : deliverTelegram decrypt tokEnc cidEnc msg = .ok reqs) :
    ∃ botToken chatId, reqs = (chunkStr msg 4000).map fun c =>
      { method := "POST",
        url := "https://api.telegram.org/bot" ++ botToken ++ "/sendMessage",
        headers := [("Content-Type", "application/json")],
        payload := Payload.telegramMsg chatId c } := by
  unfold deliverTelegram at h
  split at h
  next e heq => cases h
  next botToken heqTok =>
    split at h
    next e heq => cases h
    next chatId heqCid =>
      split at h
      next hcond => cases h
      next hcond =>
        injection h with h'
        exact ⟨botToken, chatId, h'.symm⟩

/-- C8: chunking splits a message, in order, into pieces whose concatenation
is the original text, each piece at most the size limit; a 5000-character
message yields 3 chunks at the chat-webhook limit 1900 and 2 chunks at the
bot-API limit 4000, and the discord / telegram deliver branches send exactly
one independent request per chunk of the message. -/
theorem chunking_correct (v : List Char) (size : Nat) (hs : 1 ≤ size) :
    (chunk v size).flatten = v ∧
    (∀ c ∈ chunk v size, c.length ≤ size) ∧
    (chunk (List.replicate 5000 'a') 1900).length = 3 ∧
    (chunk (List.replicate 5000 'a') 4000).length = 2 ∧
    (∀ (decrypt : String → Except String String) (enc msg : String)
        (reqs : List Request),
      deliverDiscord decrypt enc msg = .ok reqs →
      ∃ url, reqs = (chunkStr msg 1900).map fun c =>
        { method := "POST", url := url,
          headers := [("Content-Type", "application/json")],
          payload := Payload.content c }) ∧
    (∀ (decrypt : String → Except String String) (tokEnc cidEnc msg : String)
        (reqs : List Request),
      deliverTelegram decrypt tokEnc cidEnc msg = .ok reqs →
      ∃ botToken chatId, reqs = (chunkStr msg 4000).map fun c =>
        { method := "POST",
          url := "https://api.telegram.org/bot" ++ botToken ++ "/sendMessage",
          headers := [("Content-Type", "application/json")],
          payload := Payload.telegramMsg chatId c }) := by
  exact ⟨chunkAux_join size v.length v, chunkAux_le size hs v.length v le_rfl,
    by rw [chunk_5000_at_1900]; rfl, by rw [chunk_5000_at_4000]; rfl,
    fun _ _ _ _ h => deliverDiscord_ok_shape h,
    fun _ _ _ _ _ h => deliverTelegram_ok_shape h⟩

/-- Witness for C8: the concrete 5000-character message re-concatenates and
chunk counts hold. -/
theorem chunking_correct_witness :
    (chunk (List.replicate 5000 'a') 1900).flatten = List.replicate 5000 'a' ∧
      (chunk (List.replicate 5000 'a') 1900).length = 3 ∧
      (chunk (List.replicate 5000 'a') 4000).length = 2 :=
  ⟨(chunking_correct (List.replicate 5000 'a') 1900 (by omega)).1,
   (chunking_correct (List.replicate 5000 'a') 1900 (by omega)).2.2.1,
   (chunking_correct (List.replicate 5000 'a') 1900 (by omega)).2.2.2.1⟩

/-! ## C9: secret decryption failures are hard failures -/

/-- C9: decryption fails with an error whenever the envelope does not split
into exactly three colon-separated parts, whenever a part is not valid
base64, and whenever authenticated decryption (`gcm.Open`) rejects the data
(which, by GCM authenticity — stated here as a property of the `gcmOpen`
oracle — includes any tampered ciphertext); a successful decryption can only
ever return the plaintext of an authenticated open, never a default; and the
deliver branches refuse to proceed when a decrypted secret is blank or when
decryption failed. -/
theorem secret_decryption_hard_failure :
    (∀ (b64dec : List Char → Option (List Nat))
        (gcmOpen : List Nat → List Nat → Option String) (value : String),
      (splitOnChar ':' value.data).length ≠ 3 →
      ∃ e, decryptString b64dec gcmOpen value = .error e) ∧
    (∀ (b64dec : List Char → Option (List Nat))
        (gcmOpen : List Nat → List Nat → Option String) (value : String)
        (p0 p1 p2 : List Char),
      splitOnChar ':' value.data = [p0, p1, p2] →
      (b64dec p0 = none ∨ b64dec p1 = none ∨ b64dec p2 = none) →
      ∃ e, decryptString b64dec gcmOpen value = .error e) ∧
    (∀ (b64dec : List Char → Option (List Nat))
        (gcmOpen : List Nat → List Nat → Option String) (value : String)
        (p0 p1 p2 : List Char) (iv tag ct : List Nat),
      splitOnChar ':' value.data = [p0, p1, p2] →
      b64dec p0 = some iv → b64dec p1 = some tag → b64dec p2 = some ct →
      gcmOpen iv (ct ++ tag) = none →
      decryptString b64dec gcmOpen value =
        .error "cipher: message authentication failed") ∧
    (∀ (b64dec : List Char → Option (List Nat))
        (gcmOpen : List Nat → List Nat → Option String) (value : String)
        (pt : String),
      decryptString b64dec gcmOpen value = .ok pt →
      ∃ p0 p1 p2 iv tag ct, splitOnChar ':' value.data = [p0, p1, p2] ∧
        b64dec p0 = some iv ∧ b64dec p1 = some tag ∧ b64dec p2 = some ct ∧
        gcmOpen iv (ct ++ tag) = some pt) ∧
    (∀ (b64dec : List Char → Option (List Nat))
        (gcmOpen : List Nat → List Nat → Option String) (value : String)
        (p0 p1 p2 : List Char) (iv tag ct : List Nat) (sealed : List Nat),
      splitOnChar ':' value.data = [p0, p1, p2] →
      b64dec p0 = some iv → b64dec p1 = some tag → b64dec p2 = some ct →
      (∀ d, gcmOpen iv d ≠ none → d = sealed) →
      ct ++ tag ≠ sealed →
      ∃ e, decryptString b64dec gcmOpen value = .error e) ∧
    (∀ (decrypt : String → Except String String) (enc msg e : String),
      decrypt enc = .error e → deliverDiscord decrypt enc msg = .error e) ∧
    (∀ (decrypt : String → Except String String) (enc msg url : String),
      decrypt enc = .ok url → url.trim = "" →
      deliverDiscord decrypt enc msg = .error "discord webhook url is empty") ∧
    (∀ (decrypt : String → Except String String) (tokEnc cidEnc msg tok cid : String),
      decrypt tokEnc = .ok tok → decrypt cidEnc = .ok cid →
      tok.trim = "" ∨ cid.trim = "" →
      deliverTelegram decrypt tokEnc cidEnc msg =
        .error "telegram bot token/chat id is empty") ∧
    (∀ (decrypt : String → Except String String)
        (parseCfg : String → Except String WebhookCfg)
        (parseHeaders : String → Except String (List (String × String)))
        (validJson : String → Bool) (configEnc msg e : String),
      decrypt configEnc = .error e →
      deliverWebhook decrypt parseCfg parseHeaders validJson configEnc msg = .error e) := by
  refine ⟨?_, ?_, ?_, ?_, ?_, ?_, ?_, ?_, ?_⟩
  · intro b64dec gcmOpen value hlen
    unfold decryptString
    cases hsp : splitOnChar ':' value.data with
    | nil => exact ⟨_, rfl⟩
    | cons a t =>
      cases t with
      | nil => exact ⟨_, rfl⟩
      | cons b t2 =>
        cases t2 with
        | nil => exact ⟨_, rfl⟩
        | cons c t3 =>
          cases t3 with
          | nil => rw [hsp] at hlen; simp at hlen
          | cons d t4 => exact ⟨_, rfl⟩
  · intro b64dec gcmOpen value p0 p1 p2 hsp hnone
    rcases hnone with h0 | h1 | h2
    · exact ⟨"illegal base64 data", by simp only [decryptString, hsp, h0]⟩
    · cases hb0 : b64dec p0 with
      | none => exact ⟨"illegal base64 data", by simp only [decryptString, hsp, hb0]⟩
      | some iv =>
        exact ⟨"illegal base64 data", by simp only [decryptString, hsp, hb0, h1]⟩
    · cases hb0 : b64dec p0 with
      | none => exact ⟨"illegal base64 data", by simp only [decryptString, hsp, hb0]⟩
      | some iv =>
        cases hb1 : b64dec p1 with
        | none =>
          exact ⟨"illegal base64 data", by simp only [decryptString, hsp, hb0, hb1]⟩
        | some tag =>
          exact ⟨"illegal base64 data", by simp only [decryptString, hsp, hb0, hb1, h2]⟩
  · intro b64dec gcmOpen value p0 p1 p2 iv tag ct hsp h0 h1 h2 hopen
    simp only [decryptString, hsp, h0, h1, h2, hopen]
  · intro b64dec gcmOpen value pt h
    unfold decryptString at h
    split at h
    next p0 p1 p2 hsp =>
      split at h
      next => cases h
      next iv hiv =>
        split at h
        next => cases h
        next tag htag =>
          split at h
          next => cases h
          next ct hct =>
            split at h
            next => cases h
            next plain hopen =>
              injection h with h'
              exact ⟨p0, p1, p2, iv, tag, ct, hsp, hiv, htag, hct, h' ▸ hopen⟩
    next => cases h
  · intro b64dec gcmOpen value p0 p1 p2 iv tag ct sealed hsp h0 h1 h2 hauth hne
    cases hopen : gcmOpen iv (ct ++ tag) with
    | none =>
      exact ⟨"cipher: message authentication failed",
        by simp only [decryptString, hsp, h0, h1, h2, hopen]⟩
    | some pt =>
      exact absurd (hauth (ct ++ tag) (by rw [hopen]; exact fun hc => by cases hc)) hne
  · intro decrypt enc msg e hd
    simp [deliverDiscord, hd]
  · intro decrypt enc msg url hd htrim
    simp [deliverDiscord, hd, htrim]
  · intro decrypt tokEnc cidEnc msg tok cid h1 h2 hor
    simp only [deliverTelegram, h1, h2]
    rw [if_pos hor]
  · intro decrypt parseCfg parseHeaders validJson configEnc msg e hd
    simp [deliverWebhook, hd]

/-- Witness for C9: with a base64 oracle decoding characters to their code
points and a GCM oracle that rejects everything, a two-part envelope is a
malformed-envelope error and a three-part envelope fails authentication. -/
theorem secret_decryption_hard_failure_witness :
    (∃ e, decryptString (fun l => some (l.map Char.toNat)) (fun _ _ => none)
      "ab" = .error e) ∧
    decryptString (fun l => some (l.map Char.toNat)) (fun _ _ => none)
      "a:b:c" = .error "cipher: message authentication failed" :=
  ⟨secret_decryption_hard_failure.1 (fun l => some (l.map Char.toNat))
      (fun _ _ => none) "ab" (by decide),
   secret_decryption_hard_failure.2.2.1 (fun l => some (l.map Char.toNat))
      (fun _ _ => none) "a:b:c" ['a'] ['b'] ['c'] [97] [98] [99]
      (by decide) rfl rfl rfl rfl⟩

/-! ## C10: the delivered message is always the prefixed message -/

/-- C10: what `deliver` sends is never the raw execution output: it is the
header `[<job name>] <timestamp>`, a blank line, and then the output.  That
message is never equal to the raw output, never empty, the chunk limits
apply to it (every discord request carries one ≤1900-chunk of it, every
telegram request one ≤4000-chunk), and the generic webhook's default body is
`content = <prefixed message>` (a payload template, when configured, is used
verbatim instead). -/
theorem delivered_message_prefixed (name timestamp output : String) :
    buildMessage name timestamp output ≠ output ∧
    buildMessage name timestamp output ≠ "" ∧
    (∀ (decrypt : String → Except String String) (enc : String)
        (reqs : List Request),
      deliverDiscord decrypt enc (buildMessage name timestamp output) = .ok reqs →
      reqs.map Request.payload =
        (chunkStr (buildMessage name timestamp output) 1900).map Payload.content ∧
      reqs ≠ []) ∧
    (∀ (decrypt : String → Except String String) (tokEnc cidEnc : String)
        (reqs : List Request),
      deliverTelegram decrypt tokEnc cidEnc (buildMessage name timestamp output) =
        .ok reqs →
      ∃ chatId, reqs.map Request.payload =
        (chunkStr (buildMessage name timestamp output) 4000).map
          (Payload.telegramMsg chatId)) ∧
    (∀ (decrypt : String → Except String String)
        (parseCfg : String → Except String WebhookCfg)
        (parseHeaders : String → Except String (List (String × String)))
        (validJson : String → Bool) (configEnc : String) (req : Request),
      deliverWebhook decrypt parseCfg parseHeaders validJson configEnc
          (buildMessage name timestamp output) = .ok req →
      req.payload = Payload.content (buildMessage name timestamp output) ∨
      ∃ tpl, req.payload = Payload.custom tpl) := by
  have hA : ("[" : String).length = 1 := rfl
  have hB : ("] " : String).length = 2 := rfl
  have hC : ("\n\n" : String).length = 2 := rfl
  have hE : ("" : String).length = 0 := rfl
  refine ⟨?_, ?_, ?_, ?_, ?_⟩
  · intro heq
    have hlen := congrArg String.length heq
    simp only [buildMessage, String.length_append] at hlen
    omega
  · intro heq
    have hlen := congrArg String.length heq
    simp only [buildMessage, String.length_append] at hlen
    rw [hE] at hlen
    omega
  · intro decrypt enc reqs h
    obtain ⟨url, rfl⟩ := deliverDiscord_ok_shape h
    constructor
    · simp [List.map_map]
    · intro hnil
      rw [List.map_eq_nil_iff] at hnil
      simp only [chunkStr, chunk, List.map_eq_nil_iff] at hnil
      exact chunkAux_ne_nil _ _ _ hnil
  · intro decrypt tokEnc cidEnc reqs h
    obtain ⟨tok, cid, rfl⟩ := deliverTelegram_ok_shape h
    refine ⟨cid, ?_⟩
    simp [List.map_map]
  · intro decrypt parseCfg parseHeaders validJson configEnc req h
    unfold deliverWebhook at h
    repeat' split at h <;> try cases h
    all_goals try exact Or.inl rfl
    all_goals exact Or.inr ⟨_, rfl⟩

/-- Witness for C10 at a concrete job name, timestamp and output: the
passthrough decrypt oracle accepts a plain webhook URL and the requests all
carry chunks of the prefixed message. -/
theorem delivered_message_prefixed_witness :
    buildMessage "daily report" "2026-02-18 09:00" "all clear" ≠ "all clear" ∧
      ∀ reqs, deliverDiscord (fun s => .ok s) "https://h.example/wh"
          (buildMessage "daily report" "2026-02-18 09:00" "all clear") = .ok reqs →
        reqs.map Request.payload =
          (chunkStr (buildMessage "daily report" "2026-02-18 09:00" "all clear")
            1900).map Payload.content ∧ reqs ≠ [] :=
  ⟨(delivered_message_prefixed "daily report" "2026-02-18 09:00" "all clear").1,
   fun reqs h =>
    (delivered_message_prefixed "daily report" "2026-02-18 09:00" "all clear").2.2.1
      (fun s => .ok s) "https://h.example/wh" reqs h⟩

end Promptloop
